import Mathlib

/-!
Shallow embedding of the accumulator-pattern repository
(`accumulators.py`, `accumulator_practice.py`,
`advanced_accumulator_exercises.py`) together with proofs settling the
behavioural claims of its specification.

Numbers are modelled by `ℚ` (Python numeric values), Python `dict`s by
insertion-ordered association lists, and raising an exception by
`Except String`.
-/

set_option autoImplicit false

namespace Accs

/-! ## Association lists: the embedding of Python dictionaries

Python `dict`s preserve insertion order; an update of an existing key
keeps its position, a fresh key is appended at the end.  `defaultdict`
look-up of a missing key additionally inserts that key (auto-vivification),
which `ddGetitem` models explicitly.
-/

variable {α : Type} {β : Type}

/-- Find the value stored for a key, if any (Python `key in d` / `d[key]`). -/
def alistFind [DecidableEq α] : List (α × β) → α → Option β
  | [], _ => none
  | (k, v) :: rest, key => if key = k then some v else alistFind rest key

/-- Store a value for a key: update in place when present, append when absent
(Python `d[key] = v`). -/
def alistSet [DecidableEq α] : List (α × β) → α → β → List (α × β)
  | [], key, v => [(key, v)]
  | (k, w) :: rest, key, v =>
      if key = k then (k, v) :: rest else (k, w) :: alistSet rest key v

/-- `defaultdict(int)` subscript read: returns the stored value, or inserts
the key with value `0` and returns `0` when the key is absent.  The returned
dictionary is the (possibly grown) state after the access. -/
def ddGetitem [DecidableEq α] (d : List (α × Nat)) (key : α) :
    List (α × Nat) × Nat :=
  match alistFind d key with
  | some v => (d, v)
  | none => (d ++ [(key, 0)], 0)

/-! ## `accumulators.py`: the accumulator classes -/

/-- `class SumAccumulator` -/
structure SumAccumulator where
  total : ℚ
deriving DecidableEq

/-- `SumAccumulator.__init__(self, initial_value=0)`: `self.total = initial_value`. -/
def SumAccumulator.init (initial_value : ℚ) : SumAccumulator :=
  ⟨initial_value⟩

/-- `SumAccumulator.add`: `self.total += value`. -/
def SumAccumulator.add (a : SumAccumulator) (value : ℚ) : SumAccumulator :=
  ⟨a.total + value⟩

/-- `SumAccumulator.get_result`: `return self.total`. -/
def SumAccumulator.get_result (a : SumAccumulator) : ℚ :=
  a.total

/-- `SumAccumulator.reset`: `self.total = 0` (the literal `0`, not the
construction-time `initial_value`). -/
def SumAccumulator.reset (_ : SumAccumulator) : SumAccumulator :=
  ⟨0⟩

/-- `class ProductAccumulator` -/
structure ProductAccumulator where
  product : ℚ
deriving DecidableEq

/-- `ProductAccumulator.__init__(self, initial_value=1)`: `self.product = initial_value`. -/
def ProductAccumulator.init (initial_value : ℚ) : ProductAccumulator :=
  ⟨initial_value⟩

/-- `ProductAccumulator.multiply`: `self.product *= value`. -/
def ProductAccumulator.multiply (a : ProductAccumulator) (value : ℚ) : ProductAccumulator :=
  ⟨a.product * value⟩

/-- `ProductAccumulator.get_result`: `return self.product`. -/
def ProductAccumulator.get_result (a : ProductAccumulator) : ℚ :=
  a.product

/-- `ProductAccumulator.reset`: `self.product = 1` (the literal `1`, not the
construction-time `initial_value`). -/
def ProductAccumulator.reset (_ : ProductAccumulator) : ProductAccumulator :=
  ⟨1⟩

/-- `class CounterAccumulator`: `self.counts = defaultdict(int)`. -/
structure CounterAccumulator (α : Type) where
  counts : List (α × Nat)
deriving DecidableEq

/-- `CounterAccumulator.__init__`. -/
def CounterAccumulator.init {α : Type} : CounterAccumulator α :=
  ⟨[]⟩

/-- `CounterAccumulator.count`: `self.counts[item] += 1`, i.e. a `defaultdict`
read (which inserts a missing key with `0`) followed by a write of the
incremented value. -/
def CounterAccumulator.count [DecidableEq α] (c : CounterAccumulator α)
    (item : α) : CounterAccumulator α :=
  let r := ddGetitem c.counts item
  ⟨alistSet r.1 item (r.2 + 1)⟩

/-- `CounterAccumulator.count_many`: `for item in items: self.count(item)`. -/
def CounterAccumulator.count_many [DecidableEq α] (c : CounterAccumulator α)
    (items : List α) : CounterAccumulator α :=
  items.foldl CounterAccumulator.count c

/-- `CounterAccumulator.get_result`: `return dict(self.counts)` — the current
key/count mapping as a plain value. -/
def CounterAccumulator.get_result (c : CounterAccumulator α) : List (α × Nat) :=
  c.counts

/-- `CounterAccumulator.get_count`: `return self.counts[item]`.  Because
`self.counts` is a `defaultdict`, the subscript read itself may grow the
dictionary, so the embedding returns the looked-up count together with the
state of the accumulator after the call. -/
def CounterAccumulator.get_count [DecidableEq α] (c : CounterAccumulator α)
    (item : α) : Nat × CounterAccumulator α :=
  let r := ddGetitem c.counts item
  (r.2, ⟨r.1⟩)

/-- `class MinMaxAccumulator`: `self.min_value = None; self.max_value = None`. -/
structure MinMaxAccumulator where
  min_value : Option ℚ
  max_value : Option ℚ
deriving DecidableEq

/-- `MinMaxAccumulator.__init__`. -/
def MinMaxAccumulator.init : MinMaxAccumulator :=
  ⟨none, none⟩

/-- `MinMaxAccumulator.add`: update `min_value` when it is `None` or the new
value is strictly smaller, and `max_value` when it is `None` or the new value
is strictly larger. -/
def MinMaxAccumulator.add (a : MinMaxAccumulator) (value : ℚ) : MinMaxAccumulator :=
  { min_value :=
      match a.min_value with
      | none => some value
      | some m => if value < m then some value else some m
    max_value :=
      match a.max_value with
      | none => some value
      | some m => if value > m then some value else some m }

/-- `MinMaxAccumulator.get_result`: `return (self.min_value, self.max_value)`. -/
def MinMaxAccumulator.get_result (a : MinMaxAccumulator) : Option ℚ × Option ℚ :=
  (a.min_value, a.max_value)

/-- `accumulate_min_max`: feed every element of the list to a fresh
`MinMaxAccumulator` and return its `get_result()`.  There is no empty-input
guard: the function is total and returns `(None, None)` for `[]`. -/
def accumulate_min_max (values : List ℚ) : Option ℚ × Option ℚ :=
  (values.foldl MinMaxAccumulator.add MinMaxAccumulator.init).get_result

namespace Practice

/-! ## `accumulator_practice.py`: free accumulator functions -/

/-- `max_accumulator`: raises `ValueError("Cannot find max of empty list")`
on `[]`, otherwise starts from the first element and keeps the larger of the
running value and each later element. -/
def max_accumulator (numbers : List ℚ) : Except String ℚ :=
  match numbers with
  | [] => .error ("Cannot find max of empty list")
  | n :: rest =>
      .ok (rest.foldl (fun max_val num => if num > max_val then num else max_val) n)

/-- `min_accumulator`: raises `ValueError("Cannot find min of empty list")`
on `[]`, otherwise starts from the first element and keeps the smaller of the
running value and each later element. -/
def min_accumulator (numbers : List ℚ) : Except String ℚ :=
  match numbers with
  | [] => .error ("Cannot find min of empty list")
  | n :: rest =>
      .ok (rest.foldl (fun min_val num => if num < min_val then num else min_val) n)

/-- `average_accumulator`: returns `0.0` for `[]`; otherwise folds a sum and a
count over the list and returns `total / count`. -/
def average_accumulator (numbers : List ℚ) : ℚ :=
  match numbers with
  | [] => 0
  | _ =>
      let total := numbers.foldl (fun t num => t + num) 0
      let count := numbers.foldl (fun c _ => c + 1) (0 : ℕ)
      total / (count : ℚ)

/-- `running_sum_accumulator`: keeps a running total and appends it to the
result list after each element. -/
def running_sum_accumulator (numbers : List ℚ) : List ℚ :=
  (numbers.foldl
      (fun acc num =>
        let current_sum := acc.2 + num
        (acc.1 ++ [current_sum], current_sum))
      (([] : List ℚ), (0 : ℚ))).1

/-- `exercise_2_longest_word`: returns `""` for `[]`; otherwise starts from the
first word and replaces the running word only on a strictly greater length
(ties keep the first occurrence). -/
def exercise_2_longest_word (words : List String) : String :=
  match words with
  | [] => ""
  | w :: rest =>
      rest.foldl (fun longest word =>
        if word.length > longest.length then word else longest) w

/-- The list of running totals of a list, continuing from a given running
total: a recursive rendering of the `running_sum_accumulator` loop state. -/
def runningScan (current_sum : ℚ) : List ℚ → List ℚ
  | [] => []
  | n :: ns => (current_sum + n) :: runningScan (current_sum + n) ns

end Practice

namespace Advanced

/-! ## `advanced_accumulator_exercises.py` -/

/-- One inventory transaction record: a `dict` with keys `item`,
`type` (`"in"` or `"out"`), and `quantity`. -/
structure Transaction where
  item : String
  type : String
  quantity : Int
deriving DecidableEq

/-- The body of the `inventory_management_accumulator` loop for a single
transaction: initialize the item to `0` when absent, then add the quantity on
`"in"`, or subtract it on `"out"` and clamp a negative level to `0`.  Only the
`"out"` branch clamps. -/
def inventory_step (inventory : List (String × Int)) (t : Transaction) :
    List (String × Int) :=
  let inv :=
    match Accs.alistFind inventory t.item with
    | some _ => inventory
    | none => inventory ++ [(t.item, 0)]
  let cur := (Accs.alistFind inv t.item).getD 0
  if t.type = "in" then
    Accs.alistSet inv t.item (cur + t.quantity)
  else if t.type = "out" then
    let v := cur - t.quantity
    Accs.alistSet inv t.item (if v < 0 then 0 else v)
  else
    inv

/-- `inventory_management_accumulator`: fold `inventory_step` over the
transaction list starting from the empty dictionary. -/
def inventory_management_accumulator (transactions : List Transaction) :
    List (String × Int) :=
  transactions.foldl inventory_step []

/-- The loop state of `text_analysis_accumulator`: the four counters plus the
`current_word` buffer. -/
structure TextState where
  word_count : Nat
  char_count : Nat
  sentence_count : Nat
  total_word_length : Nat
  current_word : List Char
deriving DecidableEq

/-- The body of the `text_analysis_accumulator` loop for one character:
count the character; extend `current_word` on an alphabetic character;
otherwise close a non-empty `current_word` as a word and, when the character
is one of `.`, `!`, `?`, count a sentence. -/
def text_step (s : TextState) (c : Char) : TextState :=
  let s := { s with char_count := s.char_count + 1 }
  if c.isAlpha then
    { s with current_word := s.current_word ++ [c] }
  else
    let s :=
      if s.current_word ≠ [] then
        { s with
          word_count := s.word_count + 1
          total_word_length := s.total_word_length + s.current_word.length
          current_word := [] }
      else s
    if c ∈ ['.', '!', '?'] then
      { s with sentence_count := s.sentence_count + 1 }
    else s

/-- `text_analysis_accumulator`: run `text_step` over the text, then count a
trailing non-empty `current_word` as a final word.  (The returned Python dict
also carries `avg_word_length`, derived from `total_word_length` and
`word_count`; the counters themselves are the state returned here.) -/
def text_analysis_accumulator (text : List Char) : TextState :=
  let s := text.foldl text_step ⟨0, 0, 0, 0, []⟩
  if s.current_word ≠ [] then
    { s with
      word_count := s.word_count + 1
      total_word_length := s.total_word_length + s.current_word.length
      current_word := [] }
  else s

/-- Spec-side word count (`spec.md` §4.6): the number of maximal runs of
alphabetic characters, counted as the number of run starts, threading whether
the previous character was alphabetic. -/
def specRunCount : Bool → List Char → Nat
  | _, [] => 0
  | prevAlpha, c :: cs =>
      (if c.isAlpha ∧ ¬prevAlpha then 1 else 0) + specRunCount c.isAlpha cs

/-- Spec-side word count of a text: maximal alphabetic runs from the start. -/
def spec_word_count (text : List Char) : Nat :=
  specRunCount false text

/-- Spec-side sentence count: the number of occurrences of `.`, `!`, `?`. -/
def spec_sentence_count (text : List Char) : Nat :=
  (text.filter (fun c => c ∈ ['.', '!', '?'])).length

/-- The number of words the text-analysis loop state accounts for: the words
already closed plus the still-open `current_word`, if any. -/
def wordsClosed (s : TextState) : Nat :=
  s.word_count + (if s.current_word = [] then 0 else 1)

end Advanced

namespace HeapModel

/-! ## A store model for `ListAccumulator`

`ListAccumulator.get_result` returns `self.items.copy()`.  Whether the caller
can corrupt the accumulator by mutating the returned list is an aliasing
question, so this section models Python lists as heap cells: an address into a
store of list values.  `append`/`extend` mutate the accumulator's cell in
place; `get_result` allocates a fresh cell holding a copy of the items and
returns its address, exactly as `list.copy()` allocates a new list object. -/

variable {α : Type}

/-- A store of list objects; an address is an index, allocation appends. -/
structure Heap (α : Type) where
  cells : List (List α)

/-- Read the list object at an address (unallocated addresses read `[]`). -/
def hget : List (List α) → Nat → List α
  | [], _ => []
  | c :: _, 0 => c
  | _ :: cs, n + 1 => hget cs n

/-- Overwrite the list object at an address. -/
def hset : List (List α) → Nat → List α → List (List α)
  | [], _, _ => []
  | _ :: cs, 0, v => v :: cs
  | c :: cs, n + 1, v => c :: hset cs n v

/-- Read a heap cell. -/
def Heap.read (h : Heap α) (a : Nat) : List α :=
  hget h.cells a

/-- Mutate a heap cell in place. -/
def Heap.write (h : Heap α) (a : Nat) (v : List α) : Heap α :=
  ⟨hset h.cells a v⟩

/-- Allocate a fresh list object, returning the new heap and its address. -/
def Heap.alloc (h : Heap α) (v : List α) : Heap α × Nat :=
  (⟨h.cells ++ [v]⟩, h.cells.length)

/-- `ListAccumulator.__init__`: `self.items = []` — allocate an empty list;
the accumulator is the address of its `items` object. -/
def ListAccumulator.init (h : Heap α) : Heap α × Nat :=
  h.alloc []

/-- `ListAccumulator.append`: `self.items.append(value)` mutates the `items`
object in place. -/
def ListAccumulator.append (h : Heap α) (a : Nat) (value : α) : Heap α :=
  h.write a (h.read a ++ [value])

/-- `ListAccumulator.extend`: `self.items.extend(values)` mutates the `items`
object in place. -/
def ListAccumulator.extend (h : Heap α) (a : Nat) (values : List α) : Heap α :=
  h.write a (h.read a ++ values)

/-- `ListAccumulator.get_result`: `return self.items.copy()` — allocate a
fresh list object holding the current items and return its address. -/
def ListAccumulator.get_result (h : Heap α) (a : Nat) : Heap α × Nat :=
  h.alloc (h.read a)

end HeapModel

namespace HeapModel

/-- The list value a caller receives from a `get_result()` call on the
accumulator at address `a`: the contents of the freshly allocated copy, read
in the heap produced by the call. -/
def ListAccumulator.result_value {α : Type} (h : Heap α) (a : Nat) : List α :=
  ((ListAccumulator.get_result h a).1).read ((ListAccumulator.get_result h a).2)

end HeapModel

end Accs

/-! ## Claims -/

open Accs

/-- Claim C1 (code bug): `reset()` does not restore a caller-supplied initial
value.  `SumAccumulator.reset` assigns the literal `0` and
`ProductAccumulator.reset` the literal `1`, ignoring the construction-time
`initial_value` their docstrings say they restore.  Evaluated at the failing
input: an accumulator constructed with initial value `5`, fed one value, then
reset, reports `0` (resp. `1`), not `5`. -/
theorem reset_ignores_custom_initial_value :
    ((Accs.SumAccumulator.init 5).get_result = 5 ∧
      (((Accs.SumAccumulator.init 5).add 7).reset).get_result = 0) ∧
    ((Accs.ProductAccumulator.init 5).get_result = 5 ∧
      (((Accs.ProductAccumulator.init 5).multiply 7).reset).get_result = 1) :=
  ⟨⟨rfl, rfl⟩, ⟨rfl, rfl⟩⟩

/-- Claim C2 (code bug): `get_count` on a missing item returns `0` but does
not leave the state unchanged: the `defaultdict` subscript read inserts the
looked-up key, so a `get_result()` made after the lookup contains a new
`(item, 0)` entry that the `get_result()` made before it did not. -/
theorem get_count_inserts_missing_key :
    (Accs.CounterAccumulator.init (α := String)).get_result = [] ∧
    ((Accs.CounterAccumulator.init (α := String)).get_count ("banana")).1 = 0 ∧
    (((Accs.CounterAccumulator.init (α := String)).get_count ("banana")).2).get_result
      = [(("banana" : String), 0)] :=
  ⟨rfl, rfl, rfl⟩

/-- Claim C3 counterexample: the claim says every max/min-of-list operation,
`accumulate_min_max` included, raises an error on the empty list; but
`accumulate_min_max []` has no empty-input guard and returns the untouched
default `(None, None)` instead of raising. -/
theorem accumulate_min_max_empty_returns_default :
    Accs.accumulate_min_max [] = (none, none) :=
  rfl

/-- Claim C3 amended: `max_accumulator` and `min_accumulator` raise
`ValueError` on the empty list and return a value on any non-empty list,
while `accumulate_min_max` never raises and yields `(None, None)` on the
empty list. -/
theorem empty_input_error_policy :
    Practice.max_accumulator [] = .error ("Cannot find max of empty list") ∧
    Practice.min_accumulator [] = .error ("Cannot find min of empty list") ∧
    (∀ (x : ℚ) (xs : List ℚ),
      (∃ v, Practice.max_accumulator (x :: xs) = .ok v) ∧
      (∃ v, Practice.min_accumulator (x :: xs) = .ok v)) ∧
    Accs.accumulate_min_max [] = (none, none) :=
  ⟨rfl, rfl, fun _ _ => ⟨⟨_, rfl⟩, ⟨_, rfl⟩⟩, rfl⟩

/-- Claim C10: `exercise_2_longest_word` applied to the empty list returns the
empty string (the guard clause), rather than signalling an error. -/
theorem longest_word_empty_returns_empty_string :
    Practice.exercise_2_longest_word [] = "" :=
  rfl

/-- Folding addition from an arbitrary start equals the start plus the sum. -/
theorem foldl_add_eq_add_sum (xs : List ℚ) :
    ∀ a : ℚ, xs.foldl (fun t num => t + num) a = a + xs.sum := by
  induction xs with
  | nil => intro a; simp
  | cons x xs ih => intro a; simp [ih, add_assoc]

/-- Folding a unit increment from an arbitrary start counts the length. -/
theorem foldl_count_eq_add_length (xs : List ℚ) :
    ∀ n : ℕ, xs.foldl (fun c _ => c + 1) n = n + xs.length := by
  induction xs with
  | nil => intro n; simp
  | cons x xs ih => intro n; simp [ih]; omega

/-- Claim C8: `average_accumulator` returns `0` on the empty list and the sum
of the elements divided by their count on any non-empty list. -/
theorem average_empty_zero_else_sum_div_length :
    Practice.average_accumulator [] = 0 ∧
    ∀ xs : List ℚ, xs ≠ [] →
      Practice.average_accumulator xs = xs.sum / (xs.length : ℚ) := by
  refine ⟨rfl, fun xs hxs => ?_⟩
  match xs, hxs with
  | x :: rest, _ =>
    show ((x :: rest).foldl (fun t num => t + num) 0) /
        (((x :: rest).foldl (fun c _ => c + 1) (0 : ℕ) : ℕ) : ℚ)
      = (x :: rest).sum / ((x :: rest).length : ℚ)
    rw [foldl_add_eq_add_sum, foldl_count_eq_add_length]
    simp

/-- The running-minimum update of `MinMaxAccumulator.add` commutes with
itself: feeding two values in either order leaves the same minimum. -/
theorem minStep_comm (m : Option ℚ) (x y : ℚ) :
    let f : Option ℚ → ℚ → Option ℚ := fun m v =>
      match m with
      | none => some v
      | some m => if v < m then some v else some m
    f (f m x) y = f (f m y) x := by
  intro f
  have hf : ∀ (a v : ℚ), f (some a) v = if v < a then some v else some a :=
    fun a v => rfl
  cases m with
  | none =>
      show f (some x) y = f (some y) x
      rw [hf, hf]
      rcases lt_trichotomy x y with h | h | h
      · rw [if_neg (asymm h), if_pos h]
      · rw [h]
      · rw [if_pos h, if_neg (asymm h)]
  | some m =>
      show f (f (some m) x) y = f (f (some m) y) x
      rw [hf, hf]
      by_cases hx : x < m <;> by_cases hy : y < m <;>
        simp only [hx, hy, if_pos, if_neg, if_true, if_false] <;>
        rw [hf, hf] <;> split_ifs <;> first | rfl | (congr 1; linarith)

/-- The running-maximum update of `MinMaxAccumulator.add` commutes with
itself. -/
theorem maxStep_comm (m : Option ℚ) (x y : ℚ) :
    let g : Option ℚ → ℚ → Option ℚ := fun m v =>
      match m with
      | none => some v
      | some m => if v > m then some v else some m
    g (g m x) y = g (g m y) x := by
  intro g
  have hg : ∀ (a v : ℚ), g (some a) v = if v > a then some v else some a :=
    fun a v => rfl
  cases m with
  | none =>
      show g (some x) y = g (some y) x
      rw [hg, hg]
      rcases lt_trichotomy x y with h | h | h
      · rw [if_pos h, if_neg (asymm h)]
      · rw [h]
      · rw [if_neg (asymm h), if_pos h]
  | some m =>
      show g (g (some m) x) y = g (g (some m) y) x
      rw [hg, hg]
      by_cases hx : x > m <;> by_cases hy : y > m <;>
        simp only [hx, hy, if_pos, if_neg, if_true, if_false] <;>
        rw [hg, hg] <;> split_ifs <;> first | rfl | (congr 1; linarith)

/-- `MinMaxAccumulator.add` is right-commutative: the order of two
consecutive `add` calls does not matter. -/
theorem minmax_add_right_comm (s : Accs.MinMaxAccumulator) (x y : ℚ) :
    (s.add x).add y = (s.add y).add x := by
  cases s with
  | mk mn mx =>
      have h1 := minStep_comm mn x y
      have h2 := maxStep_comm mx x y
      simp only at h1 h2
      simp only [Accs.MinMaxAccumulator.add]
      exact congrArg₂ Accs.MinMaxAccumulator.mk h1 h2

/-- Claim C6: feeding any permutation of a non-empty list of numbers through
`MinMaxAccumulator.add` (and hence through `accumulate_min_max`) yields the
identical `(min, max)` result pair. -/
theorem minmax_order_independent (xs ys : List ℚ) (_h1 : xs ≠ [])
    (h2 : xs.Perm ys) :
    (xs.foldl Accs.MinMaxAccumulator.add Accs.MinMaxAccumulator.init).get_result
      = (ys.foldl Accs.MinMaxAccumulator.add Accs.MinMaxAccumulator.init).get_result
    ∧ Accs.accumulate_min_max xs = Accs.accumulate_min_max ys := by
  have hfold :
      xs.foldl Accs.MinMaxAccumulator.add Accs.MinMaxAccumulator.init
        = ys.foldl Accs.MinMaxAccumulator.add Accs.MinMaxAccumulator.init :=
    h2.foldl_eq' (fun x _ y _ s => minmax_add_right_comm s x y) _
  refine ⟨by rw [hfold], ?_⟩
  unfold Accs.accumulate_min_max
  rw [hfold]

/-- Witness for claim C6 at the concrete permutation pair
`[3, 1, 2]` and `[2, 1, 3]`. -/
theorem minmax_order_independent_witness :
    (([3, 1, 2] : List ℚ) ≠ [] ∧ ([3, 1, 2] : List ℚ).Perm [2, 1, 3]) ∧
    Accs.accumulate_min_max [3, 1, 2] = Accs.accumulate_min_max [2, 1, 3] :=
  ⟨⟨by decide, by decide⟩,
    (minmax_order_independent [3, 1, 2] [2, 1, 3] (by decide) (by decide)).2⟩

/-- A successful `alistFind` returns a value stored in the list. -/
theorem alistFind_mem {α : Type} [DecidableEq α] {d : List (α × Int)} {k : α}
    {v : Int} (h : Accs.alistFind d k = some v) : (k, v) ∈ d := by
  induction d with
  | nil => simp [Accs.alistFind] at h
  | cons p rest ih =>
      rw [Accs.alistFind] at h
      by_cases hk : k = p.1
      · rw [if_pos hk] at h
        subst hk
        rw [← Option.some.inj h]
        simp
      · rw [if_neg hk] at h
        exact List.mem_cons_of_mem _ (ih h)

/-- `alistSet` only stores values from the old list or the written value. -/
theorem alistSet_mem {α : Type} [DecidableEq α] {d : List (α × Int)} {k : α}
    {v : Int} : ∀ p ∈ Accs.alistSet d k v, p ∈ d ∨ p = (k, v) := by
  induction d with
  | nil =>
      intro p hp
      simp [Accs.alistSet] at hp
      exact Or.inr hp
  | cons q rest ih =>
      intro p hp
      rw [Accs.alistSet] at hp
      by_cases hk : k = q.1
      · rw [if_pos hk] at hp
        rcases List.mem_cons.mp hp with h | h
        · right; rw [h, hk]
        · left; exact List.mem_cons_of_mem _ h
      · rw [if_neg hk] at hp
        rcases List.mem_cons.mp hp with h | h
        · left; rw [h]; exact List.mem_cons_self _ _
        · rcases ih p h with h1 | h1
          · left; exact List.mem_cons_of_mem _ h1
          · right; exact h1

/-- `inventory_step` preserves non-negativity of every stock level, provided
the transaction's quantity is non-negative.  (The `"out"` branch clamps and
needs no hypothesis; the `"in"` branch adds the quantity unclamped.) -/
theorem inventory_step_nonneg {inv : List (String × Int)}
    {t : Advanced.Transaction} (hd : ∀ p ∈ inv, 0 ≤ p.2)
    (hq : 0 ≤ t.quantity) :
    ∀ p ∈ Advanced.inventory_step inv t, 0 ≤ p.2 := by
  unfold Advanced.inventory_step
  set inv1 :=
    match Accs.alistFind inv t.item with
    | some _ => inv
    | none => inv ++ [(t.item, 0)] with hinv1
  have hd1 : ∀ p ∈ inv1, 0 ≤ p.2 := by
    rw [hinv1]
    cases Accs.alistFind inv t.item with
    | some v => exact hd
    | none =>
        intro p hp
        rcases List.mem_append.mp hp with h | h
        · exact hd p h
        · rw [List.mem_singleton.mp h]
  have hcur : 0 ≤ (Accs.alistFind inv1 t.item).getD 0 := by
    cases hfind : Accs.alistFind inv1 t.item with
    | none => exact le_refl 0
    | some v =>
        rw [Option.getD_some]
        exact hd1 _ (alistFind_mem hfind)
  intro p hp
  by_cases hin : t.type = "in"
  · rw [if_pos hin] at hp
    rcases alistSet_mem p hp with h | h
    · exact hd1 p h
    · rw [h]
      exact add_nonneg hcur hq
  · rw [if_neg hin] at hp
    by_cases hout : t.type = "out"
    · rw [if_pos hout] at hp
      rcases alistSet_mem p hp with h | h
      · exact hd1 p h
      · rw [h]
        by_cases hneg : (Accs.alistFind inv1 t.item).getD 0 - t.quantity < 0
        · simp only [if_pos hneg]
          exact le_refl 0
        · simp only [if_neg hneg]
          omega
    · rw [if_neg hout] at hp
      exact hd1 p hp

/-- Folding `inventory_step` over non-negative-quantity transactions keeps
every stock level non-negative. -/
theorem foldl_inventory_nonneg :
    ∀ (ts : List Advanced.Transaction) (inv : List (String × Int)),
      (∀ p ∈ inv, 0 ≤ p.2) → (∀ t ∈ ts, 0 ≤ t.quantity) →
      ∀ p ∈ ts.foldl Advanced.inventory_step inv, 0 ≤ p.2 := by
  intro ts
  induction ts with
  | nil => intro inv hd _ p hp; exact hd p hp
  | cons t ts ih =>
      intro inv hd hq p hp
      rw [List.foldl_cons] at hp
      exact ih _
        (inventory_step_nonneg hd (hq t (List.mem_cons_self _ _)))
        (fun u hu => hq u (List.mem_cons_of_mem _ hu)) p hp

/-- Claim C4 counterexample: an `"in"` transaction with a negative quantity
is added unclamped, so `inventory_management_accumulator` does produce a
negative stock level. -/
theorem inventory_negative_in_produces_negative :
    Advanced.inventory_management_accumulator [⟨"Apple", "in", -5⟩]
      = [(("Apple" : String), (-5 : Int))] ∧
    ¬ (∀ p ∈ Advanced.inventory_management_accumulator [⟨"Apple", "in", -5⟩],
        0 ≤ p.2) := by
  constructor
  · rfl
  · intro h
    have := h (("Apple" : String), (-5 : Int)) (by decide)
    omega

/-- Claim C4 amended: for every transaction list whose quantities are
non-negative, every value in the returned mapping is non-negative (an `"out"`
that would drive a level negative is clamped to `0`); and the scenario
`Apple 100 in, Apple 30 out` yields `Apple ↦ 70`. -/
theorem inventory_nonneg (ts : List Advanced.Transaction)
    (h : ∀ t ∈ ts, 0 ≤ t.quantity) :
    (∀ p ∈ Advanced.inventory_management_accumulator ts, 0 ≤ p.2) ∧
    Advanced.inventory_management_accumulator
        [⟨"Apple", "in", 100⟩, ⟨"Apple", "out", 30⟩]
      = [(("Apple" : String), (70 : Int))] := by
  constructor
  · exact foldl_inventory_nonneg ts [] (by intro p hp; simp at hp) h
  · rfl

/-- Witness for claim C4 (amended) at the concrete transaction list
`[Apple in 3, Apple out 5]`, where the clamp fires. -/
theorem inventory_nonneg_witness :
    (∀ t ∈ ([⟨"Apple", "in", 3⟩, ⟨"Apple", "out", 5⟩] :
        List Advanced.Transaction), 0 ≤ t.quantity) ∧
    (∀ p ∈ Advanced.inventory_management_accumulator
        [⟨"Apple", "in", 3⟩, ⟨"Apple", "out", 5⟩], 0 ≤ p.2) :=
  ⟨by decide,
    (inventory_nonneg [⟨"Apple", "in", 3⟩, ⟨"Apple", "out", 5⟩] (by decide)).1⟩

/-- The `running_sum_accumulator` fold, started from any accumulated prefix
and running total, appends exactly `Practice.runningScan` of the rest. -/
theorem running_sum_foldl_eq (numbers : List ℚ) :
    ∀ (acc : List ℚ) (cur : ℚ),
      (numbers.foldl
          (fun acc num =>
            let current_sum := acc.2 + num
            (acc.1 ++ [current_sum], current_sum))
          (acc, cur)).1
        = acc ++ Practice.runningScan cur numbers := by
  induction numbers with
  | nil => intro acc cur; simp [Practice.runningScan]
  | cons n ns ih =>
      intro acc cur
      rw [List.foldl_cons]
      show (ns.foldl _ (acc ++ [cur + n], cur + n)).1 = _
      rw [ih, Practice.runningScan, List.append_assoc]
      rfl

/-- `Practice.runningScan` preserves length. -/
theorem Practice.runningScan_length (numbers : List ℚ) :
    ∀ cur : ℚ, (Practice.runningScan cur numbers).length = numbers.length := by
  induction numbers with
  | nil => intro cur; rfl
  | cons n ns ih => intro cur; rw [Practice.runningScan]; simp [ih]

/-- Element `i` of `Practice.runningScan cur xs` is `cur` plus the sum of the first
`i + 1` elements of `xs`. -/
theorem Practice.runningScan_getD (numbers : List ℚ) :
    ∀ (cur : ℚ) (i : Nat), i < numbers.length →
      (Practice.runningScan cur numbers).getD i 0 = cur + (numbers.take (i + 1)).sum := by
  induction numbers with
  | nil => intro cur i hi; exact absurd hi (by simp)
  | cons n ns ih =>
      intro cur i hi
      cases i with
      | zero => simp [Practice.runningScan]
      | succ j =>
          rw [Practice.runningScan]
          show (Practice.runningScan (cur + n) ns).getD j 0 = _
          rw [ih (cur + n) j (by simpa using hi)]
          simp [add_assoc]

/-- Claim C7: `running_sum_accumulator` returns a list of the same length as
its input whose `i`-th element is the sum of the first `i + 1` input
elements. -/
theorem running_sum_spec (xs : List ℚ) :
    (Practice.running_sum_accumulator xs).length = xs.length ∧
    ∀ i : Nat, i < xs.length →
      (Practice.running_sum_accumulator xs).getD i 0 = (xs.take (i + 1)).sum := by
  have hrun : Practice.running_sum_accumulator xs = Practice.runningScan 0 xs := by
    unfold Practice.running_sum_accumulator
    rw [running_sum_foldl_eq xs [] 0]
    rfl
  constructor
  · rw [hrun, Practice.runningScan_length]
  · intro i hi
    rw [hrun, Practice.runningScan_getD xs 0 i hi, zero_add]

/-- Witness for claim C7 at the concrete input `[1, 2, 3]` and index `1`. -/
theorem running_sum_spec_witness :
    (1 < ([1, 2, 3] : List ℚ).length) ∧
    (Practice.running_sum_accumulator [1, 2, 3]).getD 1 0
      = (([1, 2, 3] : List ℚ).take 2).sum :=
  ⟨by decide, (running_sum_spec [1, 2, 3]).2 1 (by decide)⟩

/-- `hget` of a freshly appended cell at the old length reads that cell. -/
theorem hget_append_self {α : Type} (l : List (List α)) (v : List α) :
    HeapModel.hget (l ++ [v]) l.length = v := by
  induction l with
  | nil => rfl
  | cons c cs ih => exact ih

/-- `hget` below the old length is unchanged by appending a cell. -/
theorem hget_append_lt {α : Type} (l : List (List α)) (v : List α) :
    ∀ i : Nat, i < l.length → HeapModel.hget (l ++ [v]) i = HeapModel.hget l i := by
  induction l with
  | nil => intro i hi; exact absurd hi (by simp)
  | cons c cs ih =>
      intro i hi
      cases i with
      | zero => rfl
      | succ j => exact ih j (by simpa using hi)

/-- `hget` at an address other than the written one is unchanged by `hset`. -/
theorem hget_hset_ne {α : Type} (l : List (List α)) (v : List α) :
    ∀ i j : Nat, i ≠ j → HeapModel.hget (HeapModel.hset l j v) i = HeapModel.hget l i := by
  induction l with
  | nil => intro i j _; rfl
  | cons c cs ih =>
      intro i j hne
      cases j with
      | zero =>
          cases i with
          | zero => exact absurd rfl hne
          | succ k => rfl
      | succ m =>
          cases i with
          | zero => rfl
          | succ k => exact ih k m (fun h => hne (by rw [h]))

/-- The value received from `get_result` is the accumulator's current items. -/
theorem result_value_eq_read {α : Type} (h : HeapModel.Heap α) (a : Nat) :
    HeapModel.ListAccumulator.result_value h a = h.read a := by
  unfold HeapModel.ListAccumulator.result_value HeapModel.ListAccumulator.get_result
  show HeapModel.hget (h.cells ++ [h.read a]) h.cells.length = h.read a
  exact hget_append_self h.cells (h.read a)

/-- Claim C9: `get_result()` on a `ListAccumulator` returns a value
independent of the accumulator's internal state.  After a `get_result()`
call, overwriting the returned copy with any list `v` does not change the
value a subsequent `get_result()` returns, and a second `get_result()` with
no intervening mutation returns an equal value. -/
theorem list_get_result_independent {α : Type} (h : HeapModel.Heap α) (a : Nat)
    (ha : a < h.cells.length) :
    (∀ v : List α,
      HeapModel.ListAccumulator.result_value
          (((HeapModel.ListAccumulator.get_result h a).1).write
            ((HeapModel.ListAccumulator.get_result h a).2) v) a
        = HeapModel.ListAccumulator.result_value h a) ∧
    HeapModel.ListAccumulator.result_value
        ((HeapModel.ListAccumulator.get_result h a).1) a
      = HeapModel.ListAccumulator.result_value h a := by
  constructor
  · intro v
    rw [result_value_eq_read, result_value_eq_read]
    show HeapModel.hget (HeapModel.hset (h.cells ++ [h.read a]) h.cells.length v) a
      = HeapModel.hget h.cells a
    rw [hget_hset_ne _ v a h.cells.length (Nat.ne_of_lt ha)]
    exact hget_append_lt h.cells (h.read a) a ha
  · rw [result_value_eq_read, result_value_eq_read]
    show HeapModel.hget (h.cells ++ [h.read a]) a = HeapModel.hget h.cells a
    exact hget_append_lt h.cells (h.read a) a ha

/-- Witness for claim C9 at the concrete one-cell heap `[[1, 2]]`, address
`0`, overwriting the returned copy with `[9]`. -/
theorem list_get_result_independent_witness :
    (0 < (HeapModel.Heap.mk [[(1 : Int), 2]]).cells.length) ∧
    HeapModel.ListAccumulator.result_value
        (((HeapModel.ListAccumulator.get_result
            (HeapModel.Heap.mk [[(1 : Int), 2]]) 0).1).write
          ((HeapModel.ListAccumulator.get_result
            (HeapModel.Heap.mk [[(1 : Int), 2]]) 0).2) [9]) 0
      = HeapModel.ListAccumulator.result_value
          (HeapModel.Heap.mk [[(1 : Int), 2]]) 0 :=
  ⟨by decide,
    (list_get_result_independent (HeapModel.Heap.mk [[(1 : Int), 2]]) 0
      (by decide)).1 [9]⟩

/-- `text_step` on an alphabetic character only counts the character and
extends `current_word`. -/
theorem text_step_alpha (s : Advanced.TextState) (c : Char)
    (ha : c.isAlpha = true) :
    Advanced.text_step s c =
      { s with
        char_count := s.char_count + 1
        current_word := s.current_word ++ [c] } := by
  simp [Advanced.text_step, ha]

/-- The fields of `text_step` on a non-alphabetic character: the open word,
if any, is closed and counted, and the sentence counter advances exactly when
the character is one of `.`, `!`, `?`. -/
theorem text_step_not_alpha (s : Advanced.TextState) (c : Char)
    (ha : c.isAlpha = false) :
    (Advanced.text_step s c).current_word = [] ∧
    (Advanced.text_step s c).word_count
      = s.word_count + (if s.current_word = [] then 0 else 1) ∧
    (Advanced.text_step s c).sentence_count
      = s.sentence_count + (if c ∈ ['.', '!', '?'] then 1 else 0) := by
  by_cases hw : s.current_word = [] <;>
    by_cases hp : c ∈ ['.', '!', '?'] <;>
      simp [Advanced.text_step, ha, hw, hp]

/-- A sentence-terminating character is not alphabetic. -/
theorem punct_not_alpha {c : Char} (hc : c ∈ ['.', '!', '?']) :
    c.isAlpha = false := by
  fin_cases hc <;> rfl

/-- A list with an element appended is not empty. -/
theorem isEmpty_append_singleton {α : Type} (l : List α) (c : α) :
    (l ++ [c]).isEmpty = false := by
  cases l <;> rfl

/-- Running the text-analysis loop from any state adds exactly the number of
maximal alphabetic runs of the remaining text (continuing an open word counts
as no new run) to the words the state accounts for. -/
theorem foldl_text_word_count (cs : List Char) :
    ∀ s : Advanced.TextState,
      Advanced.wordsClosed (cs.foldl Advanced.text_step s)
        = Advanced.wordsClosed s + Advanced.specRunCount (!s.current_word.isEmpty) cs := by
  induction cs with
  | nil => intro s; rfl
  | cons c cs ih =>
      intro s
      rw [List.foldl_cons, ih, Advanced.specRunCount]
      cases ha : c.isAlpha with
      | true =>
          rw [text_step_alpha s c ha]
          by_cases hw : s.current_word = []
          · simp [Advanced.wordsClosed, hw, ha, isEmpty_append_singleton]
            omega
          · simp [Advanced.wordsClosed, hw, ha, isEmpty_append_singleton, List.isEmpty_iff]
      | false =>
          obtain ⟨h1, h2, _⟩ := text_step_not_alpha s c ha
          by_cases hw : s.current_word = [] <;>
            simp [Advanced.wordsClosed, h1, h2, hw, ha, List.isEmpty_iff]

/-- Running the text-analysis loop from any state adds exactly the number of
`.`, `!`, `?` occurrences of the remaining text to the sentence counter. -/
theorem foldl_text_sentence_count (cs : List Char) :
    ∀ s : Advanced.TextState,
      (cs.foldl Advanced.text_step s).sentence_count
        = s.sentence_count + Advanced.spec_sentence_count cs := by
  induction cs with
  | nil => intro s; rfl
  | cons c cs ih =>
      intro s
      rw [List.foldl_cons, ih]
      cases ha : c.isAlpha with
      | true =>
          have hnp : ¬ (c = '.' ∨ c = '!' ∨ c = '?') := by
            intro hc
            have hm : c ∈ ['.', '!', '?'] := by simpa using hc
            rw [punct_not_alpha hm] at ha
            exact Bool.noConfusion ha
          have hs : (Advanced.text_step s c).sentence_count = s.sentence_count := by
            rw [text_step_alpha s c ha]
          rw [hs]
          simp [Advanced.spec_sentence_count, List.filter_cons, hnp]
      | false =>
          obtain ⟨_, _, h3⟩ := text_step_not_alpha s c ha
          rw [h3]
          by_cases hp : c ∈ ['.', '!', '?']
          · have hp' : c = '.' ∨ c = '!' ∨ c = '?' := by simpa using hp
            simp [Advanced.spec_sentence_count, List.filter_cons, hp, hp']
            omega
          · have hp' : ¬ (c = '.' ∨ c = '!' ∨ c = '?') := by simpa using hp
            simp [Advanced.spec_sentence_count, List.filter_cons, hp, hp']

/-- The trailing-word handling of `text_analysis_accumulator` turns the final
loop state's accounted words into its reported `word_count`, and leaves the
sentence counter alone. -/
theorem text_analysis_final (text : List Char) :
    (Advanced.text_analysis_accumulator text).word_count
      = Advanced.wordsClosed (text.foldl Advanced.text_step ⟨0, 0, 0, 0, []⟩) ∧
    (Advanced.text_analysis_accumulator text).sentence_count
      = (text.foldl Advanced.text_step ⟨0, 0, 0, 0, []⟩).sentence_count := by
  unfold Advanced.text_analysis_accumulator
  by_cases hw : (text.foldl Advanced.text_step ⟨0, 0, 0, 0, []⟩).current_word = [] <;>
    simp [Advanced.wordsClosed, hw]

/-- Claim C5: for every input text, `text_analysis_accumulator` reports as
`word_count` the number of maximal runs of alphabetic characters (a trailing
run still counts) and as `sentence_count` the number of occurrences of `.`,
`!`, `?`; in particular `"Hello world."` yields word count `2` and sentence
count `1`. -/
theorem text_analysis_matches_spec :
    (∀ text : List Char,
      (Advanced.text_analysis_accumulator text).word_count
          = Advanced.spec_word_count text ∧
      (Advanced.text_analysis_accumulator text).sentence_count
          = Advanced.spec_sentence_count text) ∧
    ((Advanced.text_analysis_accumulator (("Hello world.").toList)).word_count = 2 ∧
     (Advanced.text_analysis_accumulator (("Hello world.").toList)).sentence_count = 1) := by
  constructor
  · intro text
    obtain ⟨hwf, hsf⟩ := text_analysis_final text
    constructor
    · rw [hwf, foldl_text_word_count text ⟨0, 0, 0, 0, []⟩]
      simp [Advanced.wordsClosed, Advanced.spec_word_count]
    · rw [hsf, foldl_text_sentence_count text ⟨0, 0, 0, 0, []⟩]
      simp
  · exact ⟨rfl, rfl⟩

/-- Witness for claim C8 at the concrete non-empty input `[1, 2, 3]`. -/
theorem average_empty_zero_else_sum_div_length_witness :
    ([1, 2, 3] : List ℚ) ≠ [] ∧
    Practice.average_accumulator [1, 2, 3]
      = ([1, 2, 3] : List ℚ).sum / ((([1, 2, 3] : List ℚ).length : ℕ) : ℚ) :=
  ⟨by decide, average_empty_zero_else_sum_div_length.2 [1, 2, 3] (by decide)⟩
